import Mathlib

/-!
# A verification model of the izumi-chibi-ts dependency-injection core

This file gives a shallow embedding, in Lean, of the core of the
izumi-chibi-ts staged dependency-injection container: the binding model
and module composition (`ModuleDef.ts`), the planner with path-aware
activation tracing (`Planner.ts`), the synchronous and asynchronous
producers (`Producer.ts`), the locator (`Locator.ts`), the subcontext
(`Subcontext.ts`), the injector facade (`Injector.ts`) and the functoid
abstraction (`Functoid.ts`).  JavaScript runtime values are modelled by
the inductive type `Value`; the JavaScript `undefined` sentinel is the
constructor `Value.undefined`.  Thrown errors are modelled with `Except`,
and because in the source a caught exception does not roll back
mutations made before the throw, the traversal functions of the planner
return their mutable state together with an optional error instead of
discarding the state on failure.

Theorems about the embedding follow the definitions.
-/

set_option maxHeartbeats 1000000

namespace Distage

/-- An axis: a named dimension with a finite list of string choices
(`Activation.ts`, class `Axis`). -/
structure Axis where
  name : String
  choices : List String
deriving DecidableEq, Repr

/-- A dependency key, identified the way `DIKey.toMapKey` identifies it:
by the type's name, the optional id, and whether it is a set key. -/
structure DIKey where
  tname : String
  id : Option String
  isSet : Bool
deriving DecidableEq, Repr

/-- `DIKey.of(type)`. -/
def DIKey.of (n : String) : DIKey := ⟨n, none, false⟩

/-- `DIKey.named(type, id)`. -/
def DIKey.named (n : String) (i : String) : DIKey := ⟨n, some i, false⟩

/-- `DIKey.set(type)`. -/
def DIKey.setOf (n : String) : DIKey := ⟨n, none, true⟩

/-- An `Activation`: a map from axes to chosen choices, with at most one
choice per axis (`Activation.ts`, class `Activation`). -/
structure Activation where
  points : List (Axis × String)
deriving DecidableEq, Repr

/-- `Activation.empty()`. -/
def Activation.empty : Activation := ⟨[]⟩

/-- `Activation.getChoice(axis)`. -/
def Activation.getChoice (a : Activation) (ax : Axis) : Option String :=
  (a.points.find? (fun p => p.1 = ax)).map (fun p => p.2)

/-- `BindingTags`: a map from axes to choices attached to a binding
(`Activation.ts`, class `BindingTags`). -/
structure BindingTags where
  tags : List (Axis × String)
deriving DecidableEq, Repr

/-- `BindingTags.empty()`. -/
def BindingTags.empty : BindingTags := ⟨[]⟩

/-- `BindingTags.matches(activation)`: every tag's axis must be activated
at exactly the tag's choice. -/
def BindingTags.matches (t : BindingTags) (a : Activation) : Bool :=
  t.tags.all (fun p => a.getChoice p.1 == some p.2)

/-- `BindingTags.specificity()`: the number of tags. -/
def BindingTags.specificity (t : BindingTags) : Nat := t.tags.length

/-- A JavaScript runtime value, as far as the container observes it.
`undefined` is the JavaScript `undefined` sentinel; `promise v` is an
unresolved promise that resolves to `v`; `obj c args` is an object
constructed by constructor `c` from the argument list `args`;
`vset l` is a JavaScript `Set` holding the elements `l` in insertion
order; `closure tag` stands for an abstract function value (the assisted
factory's curried closure, which no theorem below invokes). -/
inductive Value where
  | undefined : Value
  | str : String → Value
  | num : Nat → Value
  | obj : String → List Value → Value
  | vset : List Value → Value
  | promise : Value → Value
  | closure : String → Value

mutual

/-- Structural equality test on values.  The JavaScript `Set` container
deduplicates by SameValueZero (reference identity for objects); in the
scenarios modelled here every element added to a set is a fresh object
or a distinct primitive, so structural equality agrees with it. -/
def Value.beq : Value → Value → Bool
  | .undefined, .undefined => true
  | .str a, .str b => a == b
  | .num a, .num b => a == b
  | .obj c as, .obj d bs => c == d && Value.beqList as bs
  | .vset as, .vset bs => Value.beqList as bs
  | .promise a, .promise b => Value.beq a b
  | .closure a, .closure b => a == b
  | _, _ => false

/-- Pointwise `Value.beq` on lists. -/
def Value.beqList : List Value → List Value → Bool
  | [], [] => true
  | a :: as, b :: bs => Value.beq a b && Value.beqList as bs
  | _, _ => false

end

/-- `await v` in the async producer: a promise resolves to its payload,
any other value is returned unchanged. -/
def Value.await : Value → Value
  | .promise v => v
  | v => v

/-- A `Functoid` (`Functoid.ts`): the underlying callable is modelled by
`run` together with its declared parameter count `arity` (the source's
`fn.length`); `deps` is the `dependencies` array and `isAsync` the flag
computed from the callable's constructor name. -/
structure Functoid where
  arity : Nat
  deps : List DIKey
  isAsync : Bool
  run : List Value → Value

/-- `Functoid.execute(args)`: a JavaScript async function returns a
promise of its result, a plain function returns the result itself. -/
def Functoid.execute (f : Functoid) (args : List Value) : Value :=
  if f.isAsync then .promise (f.run args) else f.run args

/-- `Functoid.withTypes(types)`: replaces the dependency list with keys
built from the given types.  No arity check is performed. -/
def Functoid.withTypes (f : Functoid) (types : List String) : Functoid :=
  { f with deps := types.map DIKey.of }

/-- `Functoid.withParams(params)`: replaces the dependency list with keys
built from the given type/id records.  No arity check is performed. -/
def Functoid.withParams (f : Functoid) (params : List (String × Option String)) : Functoid :=
  { f with deps := params.map (fun p => ⟨p.1, p.2, false⟩) }

/-- `Functoid.constant(value)`: a zero-dependency functoid returning the
value. -/
def Functoid.constant (v : Value) : Functoid :=
  { arity := 0, deps := [], isAsync := false, run := fun _ => v }

/-- `Functoid.getDependencies()`: throws when the callable has
parameters but no dependency information was provided; otherwise
returns the dependency list, even if its length differs from the
callable's arity. -/
def Functoid.getDependencies (f : Functoid) : Except String (List DIKey) :=
  if f.deps.isEmpty ∧ 0 < f.arity then
    .error "Cannot resolve dependencies: type information is missing."
  else
    .ok f.deps

/-- The constructor metadata of a class: its name and the ordered
dependency keys of its constructor parameters.

Modelled from the spec: the source discovers these keys through
`getConstructorDependencies`, which reads `reflect-metadata` side tables
populated by the `Injectable`/`Id` decorators; that reflection helper is
not part of the sources modelled here, and the spec (§4.5, §9) states
that a class's dependency list is exactly the ordered list of
per-parameter keys registered for its constructor. -/
structure ClassImpl where
  ctorName : String
  paramDeps : List DIKey

/-- `getConstructorDependencies(implementation)` (see `ClassImpl`). -/
def getConstructorDependencies (c : ClassImpl) : List DIKey := c.paramDeps

/-- The payload of an inner element binding of a set binding: the source
restricts elements to Instance/Class/Factory bindings. -/
inductive ElemPayload where
  | instance : Value → ElemPayload
  | cls : ClassImpl → ElemPayload
  | factory : Functoid → ElemPayload

/-- An inner element binding of a set binding (`Binding.ts`,
`SetBinding.element`). -/
structure ElemBinding where
  key : DIKey
  tags : BindingTags
  payload : ElemPayload

/-- The payload distinguishing the binding kinds of `Binding.ts`.
`set` carries the `SetBinding.weak` flag; `weakSet` is the
`BindingKind.WeakSet` variant. -/
inductive BindingPayload where
  | instance : Value → BindingPayload
  | cls : ClassImpl → BindingPayload
  | factory : Functoid → BindingPayload
  | alias : DIKey → BindingPayload
  | set : DIKey → ElemBinding → Bool → BindingPayload
  | weakSet : DIKey → ElemBinding → BindingPayload
  | assistedFactory : Functoid → Nat → BindingPayload

/-- A binding (`Binding.ts`): a key, tags, and a kind-specific payload. -/
structure Binding where
  key : DIKey
  tags : BindingTags
  payload : BindingPayload

/-- Whether a binding's kind is `Set` or `WeakSet`. -/
def Binding.isSetKind (b : Binding) : Bool :=
  match b.payload with
  | .set _ _ _ => true
  | .weakSet _ _ => true
  | _ => false

/-- Whether a set binding is weak: `kind === WeakSet || binding.weak`. -/
def Binding.isWeak (b : Binding) : Bool :=
  match b.payload with
  | .set _ _ w => w
  | .weakSet _ _ => true
  | _ => false

/-- A module (`ModuleDef.ts`): an ordered sequence of bindings. -/
structure ModuleDef where
  bindings : List Binding

/-- `ModuleDef.append(other)`: concatenation of the binding lists. -/
def ModuleDef.append (m other : ModuleDef) : ModuleDef :=
  ⟨m.bindings ++ other.bindings⟩

/-- One step of grouping a binding into an insertion-ordered multimap,
as a JavaScript `Map<string, AnyBinding[]>` does: if the key is present
its list is extended in place, otherwise a new entry is appended. -/
def groupPush (m : List (DIKey × List Binding)) (k : DIKey) (b : Binding) :
    List (DIKey × List Binding) :=
  match m with
  | [] => [(k, [b])]
  | (k', bs) :: rest =>
      if k' = k then (k', bs ++ [b]) :: rest else (k', bs) :: groupPush rest k b

/-- Group a list of bindings by key into an insertion-ordered multimap,
extending an existing map (`ModuleDef.overriddenBy` builds its
`bindingMap` this way, first from `this.bindings`, then from
`other.bindings`; `Planner.groupBindings` does the same from an empty
map). -/
def buildGroups (acc : List (DIKey × List Binding)) (bs : List Binding) :
    List (DIKey × List Binding) :=
  bs.foldl (fun m b => groupPush m b.key b) acc

/-- `ModuleDef.overriddenBy(other)`: group all bindings of both modules
by key, then for each key keep only the last binding of its group. -/
def ModuleDef.overriddenBy (m other : ModuleDef) : ModuleDef :=
  let groups := buildGroups (buildGroups [] m.bindings) other.bindings
  ⟨groups.filterMap (fun p => p.2.getLast?)⟩

/-! ## Locator (`Locator.ts`, class `LocatorImpl`) -/

/-- The instance store of a produced locator: an insertion-ordered map
from keys to values (`Map<string, any>`). -/
structure Locator where
  instances : List (DIKey × Value)

/-- Raw map lookup: `instances.get(keyStr)` before JavaScript collapses
a stored `undefined` with absence. -/
def Locator.lookupStored (l : Locator) (k : DIKey) : Option Value :=
  (l.instances.find? (fun p => p.1 = k)).map (fun p => p.2)

/-- `Map.get` as JavaScript observes it: absence and a stored
`undefined` are both `undefined`. -/
def Locator.jsGet (l : Locator) (k : DIKey) : Value :=
  (l.lookupStored k).getD .undefined

/-- `LocatorImpl.find(key)`: returns the value or `undefined`. -/
def Locator.find (l : Locator) (k : DIKey) : Value := l.jsGet k

/-- `LocatorImpl.has(key)`: `instances.has(keyStr)` — true even when the
stored value is `undefined`. -/
def Locator.has (l : Locator) (k : DIKey) : Bool := (l.lookupStored k).isSome

/-- `LocatorImpl.get(key)`: throws when `instances.get(keyStr)` is
`undefined`, which conflates absence with a stored `undefined`. -/
def Locator.get (l : Locator) (k : DIKey) : Except String Value :=
  match l.jsGet k with
  | .undefined => .error ("No instance found for key: " ++ k.tname)
  | v => .ok v

/-! ## Planner (`Planner.ts`) -/

/-- One step of the execution plan (`Plan.ts`, `PlanStep`); the planner
stores either a single binding or, for accumulated set bindings, an
array of bindings. -/
inductive StepBinding where
  | one : Binding → StepBinding
  | many : List Binding → StepBinding

/-- `PlanStep`: key, resolved binding(s), dependency key list. -/
structure PlanStep where
  key : DIKey
  binding : StepBinding
  dependencies : List DIKey

/-- An execution plan (`Plan.ts`): topologically sorted steps plus the
requested roots. -/
structure Plan where
  steps : List PlanStep
  roots : List DIKey

/-- The planning-time errors of `Plan.ts`.  `fuelExhausted` is an
artefact of the embedding: the source recursion is bounded by the
`visiting` set, the embedding in addition carries a fuel counter that is
always chosen large enough for that bound. -/
inductive PlanError where
  | missingDependency : DIKey → Option DIKey → PlanError
  | circularDependency : List DIKey → PlanError
  | conflictingBindings : DIKey → List Binding → PlanError
  | axisConflict : DIKey → Option DIKey → String → PlanError
  | functoidError : String → PlanError
  | fuelExhausted : PlanError

/-- Whether an error is one of the two kinds recovered for weak set
elements (`MissingDependencyError` or `AxisConflictError`). -/
def PlanError.isWeakRecoverable : PlanError → Bool
  | .missingDependency _ _ => true
  | .axisConflict _ _ _ => true
  | _ => false

/-- Add a choice to a `Set<string>` stored in a map entry for an axis,
creating the entry if needed (insertion semantics of the JavaScript
`Map`/`Set` pair used by `PathActivation`). -/
def axisMapAdd (m : List (Axis × List String)) (ax : Axis) (c : String) :
    List (Axis × List String) :=
  match m with
  | [] => [(ax, [c])]
  | (ax', cs) :: rest =>
      if ax' = ax then (ax', if c ∈ cs then cs else cs ++ [c]) :: rest
      else (ax', cs) :: axisMapAdd rest ax c

/-- Add several choices to an axis entry in order. -/
def axisMapAddAll (m : List (Axis × List String)) (ax : Axis) (cs : List String) :
    List (Axis × List String) :=
  cs.foldl (fun m' c => axisMapAdd m' ax c) m

/-- Look up the choice set recorded for an axis. -/
def axisMapGet (m : List (Axis × List String)) (ax : Axis) : Option (List String) :=
  (m.find? (fun p => p.1 = ax)).map (fun p => p.2)

/-- `PathActivation` (`Planner.ts`): the caller's base activation plus
the required and forbidden choice sets accumulated along the current
traversal path. -/
structure PathActivation where
  base : Activation
  required : List (Axis × List String)
  forbidden : List (Axis × List String)

/-- `PathActivation.fromActivation(activation)`. -/
def PathActivation.fromActivation (a : Activation) : PathActivation :=
  ⟨a, [], []⟩

/-- `PathActivation.withBindingConstraints(binding)`: each tag's choice
becomes required on its axis and every other choice of that axis becomes
forbidden. -/
def PathActivation.withBindingConstraints (pa : PathActivation) (b : Binding) :
    PathActivation :=
  b.tags.tags.foldl
    (fun acc t =>
      { acc with
        required := axisMapAdd acc.required t.1 t.2,
        forbidden := axisMapAddAll acc.forbidden t.1 (t.1.choices.filter (fun c => c ≠ t.2)) })
    pa

/-- `PathActivation.isBindingValid(binding)`: the binding must match the
base activation; an untagged binding is then always valid; a tagged
binding must additionally have, for each of its tags, a choice contained
in the axis's non-empty required set (if any) and not contained in the
axis's forbidden set. -/
def PathActivation.isBindingValid (pa : PathActivation) (b : Binding) : Bool :=
  if ¬ b.tags.matches pa.base then false
  else if b.tags.tags.isEmpty then true
  else
    b.tags.tags.all (fun t =>
      (match axisMapGet pa.required t.1 with
       | some req => req.isEmpty || t.2 ∈ req
       | none => true)
      &&
      (match axisMapGet pa.forbidden t.1 with
       | some forb => t.2 ∉ forb
       | none => true))

/-- `PathActivation.getConstraintsDescription()`: the rendered list of
non-empty required and forbidden constraints. -/
def PathActivation.getConstraintsDescription (pa : PathActivation) : String :=
  let reqParts := pa.required.filterMap (fun p =>
    if p.2.isEmpty then none
    else some (p.1.name ++ " must be " ++ String.intercalate " or " p.2))
  let forbParts := pa.forbidden.filterMap (fun p =>
    if p.2.isEmpty then none
    else some (p.1.name ++ " cannot be " ++ String.intercalate " or " p.2))
  String.intercalate ", " (reqParts ++ forbParts)

/-- `Planner.selectBinding`: filter the candidates by path validity;
when none survive, report `AxisConflict` if a candidate matched the base
activation (it then failed the path constraints) and `MissingDependency`
otherwise; when all survivors are set bindings and there are several,
keep them all; otherwise keep the unique most specific survivor or
report `ConflictingBindings`. -/
def selectBinding (key : DIKey) (candidates : List Binding)
    (pa : PathActivation) (requiredBy : Option DIKey) :
    Except PlanError StepBinding :=
  let valid := candidates.filter (fun b => pa.isBindingValid b)
  match valid with
  | [] =>
      let baseMatching := candidates.filter (fun b => b.tags.matches pa.base)
      if 0 < baseMatching.length then
        .error (.axisConflict key requiredBy pa.getConstraintsDescription)
      else
        .error (.missingDependency key requiredBy)
  | v0 :: vrest =>
      let allSets := (v0 :: vrest).all (fun b => b.isSetKind)
      if allSets ∧ 0 < vrest.length then
        .ok (.many (v0 :: vrest))
      else
        let maxSpec := ((v0 :: vrest).map (fun b => b.tags.specificity)).foldl max 0
        match (v0 :: vrest).filter (fun b => b.tags.specificity = maxSpec) with
        | [b] => .ok (.one b)
        | ms => .error (.conflictingBindings key ms)

/-- Dependency discovery per binding kind (`Planner.getDependencies`).
For class bindings the source calls `getConstructorDependencies` on the
implementation; factory bindings ask their functoid (which can throw);
aliases depend on their target; set bindings recurse into their element;
assisted factories declare no planning-time dependencies. -/
def plannerGetDependencies (b : Binding) : Except PlanError (List DIKey) :=
  match b.payload with
  | .instance _ => .ok []
  | .cls impl => .ok (getConstructorDependencies impl)
  | .factory f =>
      match f.getDependencies with
      | .ok ds => .ok ds
      | .error msg => .error (.functoidError msg)
  | .alias target => .ok [target]
  | .set _ e _ | .weakSet _ e =>
      match e.payload with
      | .instance _ => .ok []
      | .cls impl => .ok (getConstructorDependencies impl)
      | .factory f =>
          match f.getDependencies with
          | .ok ds => .ok ds
          | .error msg => .error (.functoidError msg)
  | .assistedFactory _ _ => .ok []

/-- The mutable traversal state of `Planner.plan`: the step map keyed by
`toMapKey` in insertion order, and the `visiting` and `visited` sets. -/
structure TraceState where
  steps : List (DIKey × PlanStep)
  visiting : List DIKey
  visited : List DIKey

/-- The empty traversal state. -/
def TraceState.init : TraceState := ⟨[], [], []⟩

/-- `Set.add` on a key set (idempotent, insertion-ordered). -/
def keySetAdd (s : List DIKey) (k : DIKey) : List DIKey :=
  if k ∈ s then s else s ++ [k]

/-- `Map.set` on the step map: replace in place or append. -/
def stepMapSet (m : List (DIKey × PlanStep)) (k : DIKey) (s : PlanStep) :
    List (DIKey × PlanStep) :=
  match m with
  | [] => [(k, s)]
  | (k', s') :: rest =>
      if k' = k then (k', s) :: rest else (k', s') :: stepMapSet rest k s

/-- A pending activity of the traversal of `Planner.traceDependencies`:
visiting one key, the loop over a dependency-key list, or the loop over
the element bindings of a set (the latter carrying the accumulated
`allDependencies` and `validBindings` arrays). -/
inductive TraceCall where
  | key : DIKey → PathActivation → List DIKey → TraceCall
  | deps : List DIKey → PathActivation → List DIKey → TraceCall
  | elems : List Binding → PathActivation → List DIKey → List DIKey → List Binding → TraceCall

/-- The outcome of a traversal activity: the state reached (a caught
JavaScript exception does not undo the mutations made before the throw,
so the state is returned even on error), the accumulated dependency and
surviving-binding arrays of a set-element loop, and the thrown error if
any. -/
structure TraceOut where
  st : TraceState
  allDeps : List DIKey
  valid : List Binding
  err : Option PlanError

/-- `Planner.traceDependencies` and its two inner loops, as one
fuel-indexed interpreter (the fuel only bounds the recursion that the
source bounds through its `visiting` set and finite modules).

For a `key` activity: a visited key returns at once; a visiting key
throws `CircularDependencyError(path ++ [key])`; a key without
candidates is marked visited when the parent locator has it and
otherwise throws `MissingDependencyError`; otherwise the binding is
selected (which can throw), the key is marked visiting, and either the
set-element loop or the dependency loop runs; only on its *successful*
return is the key removed from `visiting`, marked visited, and its step
recorded — a step is recorded for a set only when at least one element
survived.

For a `deps` activity: each dependency key is traced in order, the
first error propagating.

For an `elems` activity: each element's dependency list is appended to
`allDependencies` *before* its sub-traversal; a
`MissingDependency`/`AxisConflict` failure of a weak element is caught
(the state mutated so far is kept and the element is dropped); any
other failure is rethrown; a surviving element is appended to
`validBindings`. -/
def traceRun (index : List (DIKey × List Binding)) (parent : Option Locator) :
    Nat → TraceCall → TraceState → TraceOut
  | 0, _, st => ⟨st, [], [], some .fuelExhausted⟩
  | fuel + 1, .key key pa path, st =>
      if key ∈ st.visited then ⟨st, [], [], none⟩
      else if key ∈ st.visiting then
        ⟨st, [], [], some (.circularDependency (path ++ [key]))⟩
      else
        match (index.find? (fun p => p.1 = key)).map (fun p => p.2) with
        | none =>
            (match parent with
             | some p =>
                 if p.has key then ⟨{ st with visited := keySetAdd st.visited key }, [], [], none⟩
                 else ⟨st, [], [], some (.missingDependency key path.getLast?)⟩
             | none => ⟨st, [], [], some (.missingDependency key path.getLast?)⟩)
        | some [] =>
            (match parent with
             | some p =>
                 if p.has key then ⟨{ st with visited := keySetAdd st.visited key }, [], [], none⟩
                 else ⟨st, [], [], some (.missingDependency key path.getLast?)⟩
             | none => ⟨st, [], [], some (.missingDependency key path.getLast?)⟩)
        | some (c0 :: cs) =>
            match selectBinding key (c0 :: cs) pa path.getLast? with
            | .error e => ⟨st, [], [], some e⟩
            | .ok result =>
                let st1 := { st with visiting := keySetAdd st.visiting key }
                let newPath := path ++ [key]
                match result with
                | .many bs =>
                    (match traceRun index parent fuel (.elems bs pa newPath [] []) st1 with
                     | ⟨st2, _, _, some e⟩ => ⟨st2, [], [], some e⟩
                     | ⟨st2, allDeps, validBindings, none⟩ =>
                         let st3 :=
                           if validBindings.isEmpty then st2
                           else { st2 with
                                  steps := stepMapSet st2.steps key
                                    ⟨key, .many validBindings, allDeps⟩ }
                         ⟨{ st3 with
                            visiting := st3.visiting.filter (fun k => k ≠ key),
                            visited := keySetAdd st3.visited key }, [], [], none⟩)
                | .one b =>
                    match plannerGetDependencies b with
                    | .error e => ⟨st1, [], [], some e⟩
                    | .ok deps =>
                        let pa' := pa.withBindingConstraints b
                        match traceRun index parent fuel (.deps deps pa' newPath) st1 with
                        | ⟨st2, _, _, some e⟩ => ⟨st2, [], [], some e⟩
                        | ⟨st2, _, _, none⟩ =>
                            let st3 := { st2 with
                              steps := stepMapSet st2.steps key ⟨key, .one b, deps⟩ }
                            ⟨{ st3 with
                               visiting := st3.visiting.filter (fun k => k ≠ key),
                               visited := keySetAdd st3.visited key }, [], [], none⟩
  | _ + 1, .deps [] _ _, st => ⟨st, [], [], none⟩
  | fuel + 1, .deps (d :: ds) pa path, st =>
      (match traceRun index parent fuel (.key d pa path) st with
       | ⟨st', _, _, some e⟩ => ⟨st', [], [], some e⟩
       | ⟨st', _, _, none⟩ => traceRun index parent fuel (.deps ds pa path) st')
  | _ + 1, .elems [] _ _ allDeps validBindings, st => ⟨st, allDeps, validBindings, none⟩
  | fuel + 1, .elems (b :: bs) pa path allDeps validBindings, st =>
      match plannerGetDependencies b with
      | .error e =>
          if b.isWeak ∧ e.isWeakRecoverable then
            traceRun index parent fuel (.elems bs pa path allDeps validBindings) st
          else
            ⟨st, allDeps, validBindings, some e⟩
      | .ok deps =>
          let allDeps' := allDeps ++ deps
          let pa' := pa.withBindingConstraints b
          match traceRun index parent fuel (.deps deps pa' path) st with
          | ⟨st', _, _, some e⟩ =>
              if b.isWeak ∧ e.isWeakRecoverable then
                traceRun index parent fuel (.elems bs pa path allDeps' validBindings) st'
              else
                ⟨st', allDeps', validBindings, some e⟩
          | ⟨st', _, _, none⟩ =>
              traceRun index parent fuel (.elems bs pa path allDeps' (validBindings ++ [b])) st'

/-- `Planner.traceDependencies` for one key (see `traceRun`). -/
def traceDeps (fuel : Nat) (key : DIKey) (index : List (DIKey × List Binding))
    (pa : PathActivation) (st : TraceState) (path : List DIKey)
    (parent : Option Locator) : TraceState × Option PlanError :=
  match traceRun index parent fuel (.key key pa path) st with
  | ⟨st', _, _, e⟩ => (st', e)

/-- The mutable state of `Planner.topologicalSort`'s DFS. -/
structure TopoState where
  sorted : List PlanStep
  visited : List DIKey
  visiting : List DIKey

/-- A pending activity of the DFS of `Planner.topologicalSort`:
visiting one step, or the loop over a step's dependency keys. -/
inductive TopoCall where
  | step : PlanStep → TopoCall
  | deps : List DIKey → TopoCall

/-- The `visit` closure of `Planner.topologicalSort` and its loop over
`step.dependencies`, as one fuel-indexed interpreter.  Visiting skips a
visited step, reports a cycle on a visiting step, and otherwise visits
the steps of the dependency keys first and then appends the step;
dependency keys with no step in the input list are skipped. -/
def topoRun (steps : List PlanStep) : Nat → TopoCall → TopoState →
    TopoState × Option PlanError
  | 0, _, st => (st, some .fuelExhausted)
  | fuel + 1, .step step, st =>
      if step.key ∈ st.visited then (st, none)
      else if step.key ∈ st.visiting then
        (st, some (.circularDependency [step.key]))
      else
        let st1 := { st with visiting := keySetAdd st.visiting step.key }
        match topoRun steps fuel (.deps step.dependencies) st1 with
        | (st2, some e) => (st2, some e)
        | (st2, none) =>
            ({ st2 with
               visiting := st2.visiting.filter (fun k => k ≠ step.key),
               visited := keySetAdd st2.visited step.key,
               sorted := st2.sorted ++ [step] }, none)
  | _ + 1, .deps [], st => (st, none)
  | fuel + 1, .deps (d :: ds), st =>
      match steps.find? (fun s => s.key = d) with
      | none => topoRun steps fuel (.deps ds) st
      | some depStep =>
          (match topoRun steps fuel (.step depStep) st with
           | (st', some e) => (st', some e)
           | (st', none) => topoRun steps fuel (.deps ds) st')

/-- A fuel amount exceeding the depth the DFS of `topologicalSort` can
reach on the given steps. -/
def topoFuel (steps : List PlanStep) : Nat :=
  2 * (steps.length + (steps.map (fun s => s.dependencies.length)).sum + 2)

/-- The outer loop of `Planner.topologicalSort` over all steps. -/
def topoLoop (steps : List PlanStep) : List PlanStep → TopoState →
    TopoState × Option PlanError
  | [], st => (st, none)
  | s :: ss, st =>
      match topoRun steps (topoFuel steps) (.step s) st with
      | (st', some e) => (st', some e)
      | (st', none) => topoLoop steps ss st'

/-- `Planner.topologicalSort(steps)`. -/
def topologicalSort (steps : List PlanStep) : Except PlanError (List PlanStep) :=
  match topoLoop steps steps ⟨[], [], []⟩ with
  | (_, some e) => .error e
  | (st, none) => .ok st.sorted

/-- The loop of `Planner.plan` over the requested roots, tracing each
root's dependencies in turn. -/
def rootsLoop (fuel : Nat) (index : List (DIKey × List Binding)) (pa : PathActivation)
    (parent : Option Locator) : List DIKey → TraceState → TraceState × Option PlanError
  | [], st => (st, none)
  | r :: rs, st =>
      match traceDeps fuel r index pa st [] parent with
      | (st', some e) => (st', some e)
      | (st', none) => rootsLoop fuel index pa parent rs st'

/-- A fuel amount exceeding the depth the traversal of `Planner.plan`
can reach on the given module and roots: the `visiting` set bounds the
key depth by the number of distinct keys, and each dependency or element
list contributes at most its length to the interpreter's chain of
activities. -/
def planFuel (m : ModuleDef) (roots : List DIKey) : Nat :=
  let w := roots.length +
    (m.bindings.map (fun b =>
      4 + (match plannerGetDependencies b with | .ok ds => ds.length | .error _ => 0))).sum
  (w + 2) * (w + 2)

/-- `Planner.plan(module, roots, activation, parentLocator)`: group the
bindings by key, trace the dependencies of each root, then topologically
sort the collected steps.  The fuel handed to the traversal exceeds the
recursion depth bound enforced by the `visiting` set. -/
def plannerPlan (m : ModuleDef) (roots : List DIKey) (activation : Activation)
    (parent : Option Locator) : Except PlanError Plan :=
  let index := buildGroups [] m.bindings
  let pa := PathActivation.fromActivation activation
  let fuel := planFuel m roots
  match rootsLoop fuel index pa parent roots TraceState.init with
  | (_, some e) => .error e
  | (st, none) =>
      match topologicalSort (st.steps.map (fun p => p.2)) with
      | .error e => .error e
      | .ok sorted => .ok ⟨sorted, roots⟩

/-! ## Producer (`Producer.ts`) -/

/-- `Set.add` on a produced set value: JavaScript `Set` insertion,
deduplicating (see `Value.beq`) and preserving insertion order. -/
def jsSetAdd (s : List Value) (v : Value) : List Value :=
  if s.any (fun x => Value.beq x v) then s else s ++ [v]

/-- The `sets` map of the producer: one accumulated set per set key. -/
def setsMapGet (sets : List (DIKey × List Value)) (k : DIKey) : List Value :=
  ((sets.find? (fun p => p.1 = k)).map (fun p => p.2)).getD []

/-- Store a set in the `sets` map (replace in place or append). -/
def setsMapSet (sets : List (DIKey × List Value)) (k : DIKey) (v : List Value) :
    List (DIKey × List Value) :=
  match sets with
  | [] => [(k, v)]
  | (k', v') :: rest =>
      if k' = k then (k', v) :: rest else (k', v') :: setsMapSet rest k v

/-- `Map.has` on the instance map under construction. -/
def instMapHas (instances : List (DIKey × Value)) (k : DIKey) : Bool :=
  (instances.find? (fun p => p.1 = k)).isSome

/-- `Map.get` on the instance map, with JavaScript's collapse of absence
and stored `undefined`. -/
def instMapGet (instances : List (DIKey × Value)) (k : DIKey) : Value :=
  (((instances.find? (fun p => p.1 = k)).map (fun p => p.2)).getD .undefined)

/-- `Producer.resolveInstance(key, instances, parentLocator)`: a value
from the instance map if defined, else from the parent locator if
defined, else a thrown error. -/
def resolveInstance (instances : List (DIKey × Value)) (parent : Option Locator)
    (k : DIKey) : Except String Value :=
  match instMapGet instances k with
  | .undefined =>
      (match parent with
       | some p =>
           (match p.find k with
            | .undefined => .error ("Dependency not found: " ++ k.tname)
            | v => .ok v)
       | none => .error ("Dependency not found: " ++ k.tname))
  | v => .ok v

/-- Resolve a dependency list to positional arguments. -/
def resolveArgs (instances : List (DIKey × Value)) (parent : Option Locator) :
    List DIKey → Except String (List Value)
  | [] => .ok []
  | d :: ds => do
      let v ← resolveInstance instances parent d
      let vs ← resolveArgs instances parent ds
      .ok (v :: vs)

/-- `Producer.createInstanceForSetElement`: construct one set element
from its inner Instance/Class/Factory binding.  For class and factory
elements the dependency keys are the ones declared by the element's
functoid (`getBindingDependencies`).  When `await` is true the async
variant is modelled, which resolves a returned promise. -/
def createSetElem (aw : Bool) (e : ElemBinding) (instances : List (DIKey × Value))
    (parent : Option Locator) : Except String Value :=
  match e.payload with
  | .instance v => .ok v
  | .cls impl => do
      let args ← resolveArgs instances parent (getConstructorDependencies impl)
      .ok (.obj impl.ctorName args)
  | .factory f => do
      let deps ← f.getDependencies
      let args ← resolveArgs instances parent deps
      .ok (if aw then (f.execute args).await else f.execute args)

/-- The element loop of `Producer.createSetFromMultipleBindings`: weak
elements whose construction throws are skipped, other failures are
rethrown. -/
def buildSetElems (aw : Bool) (bs : List Binding) (instances : List (DIKey × Value))
    (parent : Option Locator) (acc : List Value) : Except String (List Value) :=
  match bs with
  | [] => .ok acc
  | b :: rest =>
      match b.payload with
      | .set _ e _ | .weakSet _ e =>
          (match createSetElem aw e instances parent with
           | .ok v => buildSetElems aw rest instances parent (jsSetAdd acc v)
           | .error msg =>
               if b.isWeak then buildSetElems aw rest instances parent acc
               else .error msg)
      | _ => .error "Unsupported set element binding kind"

/-- `Producer.createInstance(step, instances, sets, parentLocator)`
(and, when `aw` is true, `createInstanceAsync`): returns the produced
value together with the updated `sets` map. -/
def createInstance (aw : Bool) (step : PlanStep) (instances : List (DIKey × Value))
    (sets : List (DIKey × List Value)) (parent : Option Locator) :
    Except String (Value × List (DIKey × List Value)) :=
  match step.binding with
  | .many bs => do
      let s0 := setsMapGet sets step.key
      let s ← buildSetElems aw bs instances parent s0
      .ok (.vset s, setsMapSet sets step.key s)
  | .one b =>
      match b.payload with
      | .instance v => .ok (v, sets)
      | .cls impl => do
          let args ← resolveArgs instances parent step.dependencies
          .ok (.obj impl.ctorName args, sets)
      | .factory f => do
          let args ← resolveArgs instances parent step.dependencies
          .ok ((if aw then (f.execute args).await else f.execute args), sets)
      | .alias target => do
          let v ← resolveInstance instances parent target
          .ok (v, sets)
      | .set _ e _ | .weakSet _ e =>
          let s0 := setsMapGet sets b.key
          (match createSetElem aw e instances parent with
           | .ok v =>
               let s := jsSetAdd s0 v
               .ok (.vset s, setsMapSet sets b.key s)
           | .error msg =>
               if b.isWeak then .ok (.vset s0, setsMapSet sets b.key s0)
               else .error msg)
      | .assistedFactory _ _ => .ok (.closure "assistedFactory", sets)

/-- `Producer.executeStep`: skip a key already present in the instance
map, otherwise create the instance and store it. -/
def executeStep (aw : Bool) (step : PlanStep) (instances : List (DIKey × Value))
    (sets : List (DIKey × List Value)) (parent : Option Locator) :
    Except String (List (DIKey × Value) × List (DIKey × List Value)) :=
  if instMapHas instances step.key then .ok (instances, sets)
  else do
    let (v, sets') ← createInstance aw step instances sets parent
    .ok (instances ++ [(step.key, v)], sets')

/-- `Producer.produce(plan, parentLocator)`: execute the steps in plan
order and wrap the instance map in a locator. -/
def produce (plan : Plan) (parent : Option Locator) : Except String Locator := do
  let (instances, _) ← plan.steps.foldlM
    (fun acc step => executeStep false step acc.1 acc.2 parent)
    (([] : List (DIKey × Value)), ([] : List (DIKey × List Value)))
  .ok ⟨instances⟩

/-- The readiness test of `Producer.produceAsync`: every dependency key
of the step must be in `completed` or already present in the instance
map.  The source cannot consult the parent locator at this point (its
comment notes it lacks the original `DIKey`) and returns `false` for a
dependency that only the parent serves. -/
def stepReady (completed : List DIKey) (instances : List (DIKey × Value))
    (step : PlanStep) : Bool :=
  step.dependencies.all (fun d => d ∈ completed ∨ instMapHas instances d)

/-- Execute one wave of ready steps in order (the concurrently started
futures of the source driver, whose final effect on the instance map is
the same). -/
def runWave (steps : List PlanStep) (instances : List (DIKey × Value))
    (sets : List (DIKey × List Value)) (parent : Option Locator) :
    Except String (List (DIKey × Value) × List (DIKey × List Value)) :=
  steps.foldlM (fun acc step => executeStep true step acc.1 acc.2 parent)
    (instances, sets)

/-- The scheduling loop of `Producer.produceAsync`: repeatedly start
every ready unstarted step; when no step is ready and none is in
progress while steps remain, throw the malformed-plan error. -/
def produceAsyncLoop : Nat → List PlanStep → List DIKey → List (DIKey × Value) →
    List (DIKey × List Value) → Option Locator → Except String Locator
  | 0, _, _, _, _, _ => .error "produceAsync: fuel exhausted"
  | fuel + 1, steps, completed, instances, sets, parent =>
      if steps.all (fun s => s.key ∈ completed) then .ok ⟨instances⟩
      else
        let ready := steps.filter
          (fun s => s.key ∉ completed ∧ stepReady completed instances s)
        if ready.isEmpty then
          .error "Circular dependency detected or invalid plan"
        else do
          let (instances', sets') ← runWave ready instances sets parent
          produceAsyncLoop fuel steps (completed ++ ready.map (fun s => s.key))
            instances' sets' parent

/-- `Producer.produceAsync(plan, parentLocator)`. -/
def produceAsync (plan : Plan) (parent : Option Locator) : Except String Locator :=
  produceAsyncLoop (plan.steps.length + 1) plan.steps [] [] [] parent

/-! ## Injector (`Injector.ts`) and Subcontext (`Subcontext.ts`) -/

/-- An error escaping `Injector.produce`: a planning error or a thrown
producer error. -/
inductive InjError where
  | planning : PlanError → InjError
  | producing : String → InjError

/-- `Injector.produce(module, roots, options)`: plan, then run the
*synchronous* producer — `produce` never inspects the plan for async
functoids. -/
def injectorProduce (m : ModuleDef) (roots : List DIKey) (activation : Activation)
    (parent : Option Locator) : Except InjError Locator :=
  match plannerPlan m roots activation parent with
  | .error e => .error (.planning e)
  | .ok p =>
      match produce p parent with
      | .error msg => .error (.producing msg)
      | .ok l => .ok l

/-- `Injector.produceAsync(module, roots, options)`: plan, then run the
asynchronous producer. -/
def injectorProduceAsync (m : ModuleDef) (roots : List DIKey) (activation : Activation)
    (parent : Option Locator) : Except InjError Locator :=
  match plannerPlan m roots activation parent with
  | .error e => .error (.planning e)
  | .ok p =>
      match produceAsync p parent with
      | .error msg => .error (.producing msg)
      | .ok l => .ok l

/-- Whether a plan references an async functoid (in a factory step or a
factory set element), the condition the spec assigns to mode choice. -/
def Plan.referencesAsyncFunctoid (p : Plan) : Bool :=
  p.steps.any (fun s =>
    match s.binding with
    | .one b =>
        (match b.payload with
         | .factory f => f.isAsync
         | .set _ e _ | .weakSet _ e =>
             (match e.payload with
              | .factory f => f.isAsync
              | _ => false)
         | _ => false)
    | .many bs =>
        bs.any (fun b =>
          match b.payload with
          | .set _ e _ | .weakSet _ e =>
              (match e.payload with
               | .factory f => f.isAsync
               | _ => false)
          | _ => false))

/-- A subcontext (`Subcontext.ts`): a parent locator together with the
child locator produced from the child module with the parent passed as
`parentLocator`. -/
structure Subcontext where
  parent : Locator
  child : Locator

/-- The `Subcontext` constructor: produce the child locator from the
child module with the parent as `parentLocator`. -/
def Subcontext.create (parent : Locator) (m : ModuleDef) (roots : List DIKey)
    (activation : Activation) : Except InjError Subcontext :=
  match injectorProduce m roots activation (some parent) with
  | .error e => .error e
  | .ok child => .ok ⟨parent, child⟩

/-- `Subcontext.get(key)`: the child's value when `find` on the child
yields a defined value, otherwise the parent's `get`. -/
def Subcontext.get (s : Subcontext) (k : DIKey) : Except String Value :=
  match s.child.find k with
  | .undefined => s.parent.get k
  | v => .ok v

/-- `Subcontext.find(key)`. -/
def Subcontext.find (s : Subcontext) (k : DIKey) : Value :=
  match s.child.find k with
  | .undefined => s.parent.find k
  | v => v

/-- `Subcontext.has(key)`: the disjunction. -/
def Subcontext.has (s : Subcontext) (k : DIKey) : Bool :=
  s.child.has k || s.parent.has k

/-- `Subcontext.getSet(type)`: union of the parent's and child's sets
when both exist (parent's elements first, as the spread order has it),
otherwise whichever exists, otherwise a thrown error. -/
def Subcontext.getSet (s : Subcontext) (n : String) : Except String Value :=
  let key := DIKey.setOf n
  match s.parent.find key, s.child.find key with
  | .vset ps, .vset cs => .ok (.vset ((ps ++ cs).foldl jsSetAdd []))
  | .undefined, .undefined => .error ("No set found for type: " ++ n)
  | .undefined, c => .ok c
  | p, .undefined => .ok p
  | _, _ => .error "TypeError: value is not iterable"

/-! ## Soundness predicates -/

/-- Topological soundness of a plan, weakened to what the planner
guarantees: every dependency key of a step either is the key of a step
appearing strictly earlier in the plan, or is the key of no step of the
plan at all (it is then served by the parent locator at production time,
or is a leftover dependency of a weak set element dropped during
planning). -/
def PlanTopoSound (p : Plan) : Prop :=
  ∀ i s, p.steps.get? i = some s → ∀ k ∈ s.dependencies,
    (∃ j t, j < i ∧ p.steps.get? j = some t ∧ t.key = k) ∨
    (∀ t ∈ p.steps, t.key ≠ k)

/-- The invariant maintained by the DFS of `Planner.topologicalSort`:
every emitted step's dependencies are keys of earlier emitted steps or
keys without a step in the input; the `visited` set is exactly the keys
already emitted; everything emitted comes from the input list. -/
def TopoInv (input : List PlanStep) (st : TopoState) : Prop :=
  (∀ i s, st.sorted.get? i = some s → ∀ k ∈ s.dependencies,
    (∃ j t, j < i ∧ st.sorted.get? j = some t ∧ t.key = k) ∨
    (∀ t ∈ input, t.key ≠ k)) ∧
  (∀ x ∈ st.visited, ∃ s ∈ st.sorted, s.key = x) ∧
  (∀ s ∈ st.sorted, s ∈ input)

/-! ## Concrete scenario data used by the theorems -/

/-- The `Config` key of scenario S1. -/
def kCfg : DIKey := DIKey.of "Config"

/-- The `Database` key of scenario S1. -/
def kDB : DIKey := DIKey.of "Database"

/-- The `UserService` key of scenario S1. -/
def kUS : DIKey := DIKey.of "UserService"

/-- S1: `Config` bound to the pre-built value `"shared"`. -/
def bCfg : Binding :=
  { key := kCfg, tags := BindingTags.empty, payload := .instance (.str "shared") }

/-- S1: `Database` bound to a class whose constructor takes `Config`. -/
def bDB : Binding :=
  { key := kDB, tags := BindingTags.empty, payload := .cls ⟨"Database", [kCfg]⟩ }

/-- S1: `UserService` bound to a class whose constructor takes
`Database` and `Config`. -/
def bUS : Binding :=
  { key := kUS, tags := BindingTags.empty, payload := .cls ⟨"UserService", [kDB, kCfg]⟩ }

/-- The module of scenario S1. -/
def mS1 : ModuleDef := ⟨[bCfg, bDB, bUS]⟩

/-- The `Database` instance produced in scenario S1. -/
def dbVal : Value := .obj "Database" [.str "shared"]

/-- The locator produced in scenario S1. -/
def locS1 : Locator :=
  ⟨[(kCfg, .str "shared"), (kDB, dbVal), (kUS, .obj "UserService" [dbVal, .str "shared"])]⟩

/-- The set key `Set<Plugin>`. -/
def kSetP : DIKey := DIKey.setOf "Plugin"

/-- The element key `Plugin`. -/
def kPlug : DIKey := DIKey.of "Plugin"

/-- A key `D` with a binding whose own dependency is missing. -/
def kD : DIKey := DIKey.of "D"

/-- A key `E` with no binding at all. -/
def kE : DIKey := DIKey.of "E"

/-- A weak set element: a class depending on `D`. -/
def elemW : ElemBinding :=
  { key := kPlug, tags := BindingTags.empty, payload := .cls ⟨"PluginWithD", [kD]⟩ }

/-- A plain set element: a pre-built value. -/
def elemV : ElemBinding :=
  { key := kPlug, tags := BindingTags.empty, payload := .instance (.str "core") }

/-- The weak set-element binding wrapping `elemW`. -/
def bW : Binding :=
  { key := kSetP, tags := BindingTags.empty, payload := .set kPlug elemW true }

/-- The ordinary set-element binding wrapping `elemV`. -/
def bV : Binding :=
  { key := kSetP, tags := BindingTags.empty, payload := .set kPlug elemV false }

/-- The binding for `D`: a class depending on the missing `E`. -/
def bD : Binding :=
  { key := kD, tags := BindingTags.empty, payload := .cls ⟨"D", [kE]⟩ }

/-- A module with one weak set element whose dependency tree fails
(`D` needs the missing `E`) and one surviving value element. -/
def mWeak : ModuleDef := ⟨[bW, bV, bD]⟩

/-- The plan the planner produces for `mWeak`: the weak element is
dropped, yet its dependency key `D` stays in the recorded dependency
list of the set's step. -/
def planWeak : Plan := ⟨[⟨kSetP, .many [bV], [kD]⟩], [kSetP]⟩

/-- The binding index the planner builds for `mWeak`. -/
def idxWeak : List (DIKey × List Binding) := buildGroups [] mWeak.bindings

/-- The path activation of an empty base activation. -/
def paEmpty : PathActivation := PathActivation.fromActivation Activation.empty

/-- The traversal state left behind by tracing the root `Set<Plugin>` of
`mWeak`: the step for the set retains the dropped element's dependency
`D`, and `D` is still marked as visiting. -/
def stWeak : TraceState := ⟨[(kSetP, ⟨kSetP, .many [bV], [kD]⟩)], [kD], [kSetP]⟩

/-- `mWeak` with a second weak element also depending on `D`: the stale
`visiting` mark left by the first element makes the second element's
traversal of `D` raise `CircularDependencyError`, which the weak-element
recovery does not catch. -/
def mWeak2 : ModuleDef := ⟨[bW, bW, bV, bD]⟩

/-- The key `A` of the parent-dependency scenario. -/
def kA : DIKey := DIKey.of "A"

/-- The key `P`, served only by the parent locator. -/
def kP : DIKey := DIKey.of "P"

/-- `A` bound to a class whose constructor takes `P`. -/
def bA : Binding :=
  { key := kA, tags := BindingTags.empty, payload := .cls ⟨"A", [kP]⟩ }

/-- The module of the parent-dependency scenario: only `A`. -/
def mA : ModuleDef := ⟨[bA]⟩

/-- A parent locator serving `P`. -/
def parentP : Locator := ⟨[(kP, .str "p")]⟩

/-- The plan for `mA` against `parentP`: one step for `A`, depending on
the parent-served `P`. -/
def planA : Plan := ⟨[⟨kA, .one bA, [kP]⟩], [kA]⟩

/-- An async factory functoid resolving to the string `"v"`. -/
def fAsync : Functoid :=
  { arity := 0, deps := [], isAsync := true, run := fun _ => .str "v" }

/-- The key `X` of the async-factory and undefined-value scenarios. -/
def kX : DIKey := DIKey.of "X"

/-- `X` bound to the async factory `fAsync`. -/
def bX : Binding :=
  { key := kX, tags := BindingTags.empty, payload := .factory fAsync }

/-- The module with a single async factory binding. -/
def mAsync : ModuleDef := ⟨[bX]⟩

/-- The plan for `mAsync`. -/
def planAsync : Plan := ⟨[⟨kX, .one bX, []⟩], [kX]⟩

/-- `X` bound to the pre-built value `undefined`. -/
def bU : Binding :=
  { key := kX, tags := BindingTags.empty, payload := .instance .undefined }

/-- The module binding `X` to `undefined`. -/
def mU : ModuleDef := ⟨[bU]⟩

/-- The locator produced from `mU`: the instance map holds `undefined`
at `X`. -/
def locU : Locator := ⟨[(kX, .undefined)]⟩

/-- A parent locator holding a defined value at `X`. -/
def parentX : Locator := ⟨[(kX, .str "parentVal")]⟩

/-- The `Env` axis with choices `prod` and `test`. -/
def axEnv : Axis := ⟨"Env", ["prod", "test"]⟩

/-- A candidate binding for `D` tagged `Env:prod`. -/
def bTagged : Binding :=
  { key := kD, tags := ⟨[(axEnv, "prod")]⟩, payload := .instance (.str "d") }

/-- A path activation whose base selects `Env:prod` but whose path
constraints forbid `prod` on `Env`: `bTagged` matches the base
activation yet fails the path constraints. -/
def paConf : PathActivation :=
  { base := ⟨[(axEnv, "prod")]⟩, required := [], forbidden := [(axEnv, ["prod"])] }

/-- A path activation whose base selects `Env:test`, which `bTagged`
does not match. -/
def paMiss : PathActivation :=
  { base := ⟨[(axEnv, "test")]⟩, required := [], forbidden := [] }

/-- Base set-element binding of the override counterexample, carrying
the value `"p1"`. -/
def bSet1 : Binding :=
  { key := kSetP, tags := BindingTags.empty,
    payload := .set kPlug ⟨kPlug, BindingTags.empty, .instance (.str "p1")⟩ false }

/-- Overlay set-element binding of the override counterexample, carrying
the value `"p2"`. -/
def bSet2 : Binding :=
  { key := kSetP, tags := BindingTags.empty,
    payload := .set kPlug ⟨kPlug, BindingTags.empty, .instance (.str "p2")⟩ false }

/-- The base module of the override counterexample. -/
def mOverBase : ModuleDef := ⟨[bSet1]⟩

/-- The overlay module of the override counterexample. -/
def mOverlay : ModuleDef := ⟨[bSet2]⟩

/-- The child module of the subcontext set-merge check: one set element
with value `"p2"`. -/
def mChildSet : ModuleDef := ⟨[bSet2]⟩

/-- A parent locator already holding the set `{"p1"}` at `Set<Plugin>`. -/
def parentSetL : Locator := ⟨[(kSetP, .vset [.str "p1"])]⟩

/-- A functoid of arity 2 used by the arity-mismatch counterexample. -/
def fTwo : Functoid :=
  { arity := 2, deps := [], isAsync := false, run := fun _ => .undefined }

/-- The bindings a grouped multimap stores for a key. -/
def groupLookup (m : List (DIKey × List Binding)) (k : DIKey) : List Binding :=
  ((m.find? (fun p => p.1 = k)).map (fun p => p.2)).getD []

/-- Well-formedness of a grouped multimap: entries hold bindings of
their own key, and keys are not duplicated. -/
def GroupsWF (m : List (DIKey × List Binding)) : Prop :=
  (∀ p ∈ m, ∀ b ∈ p.2, b.key = p.1) ∧ (m.map Prod.fst).Nodup

/-- A `step` activity handed to the DFS of `topologicalSort` always
carries a step of the input list. -/
def TopoCallOK (steps : List PlanStep) : TopoCall → Prop
  | .step s => s ∈ steps
  | .deps _ => True

/-- What a successfully finished DFS activity guarantees: a visited
step's key is in `visited`; after a dependency loop, every dependency
key either has no step in the input or is in `visited`. -/
def TopoPost (steps : List PlanStep) (st' : TopoState) : TopoCall → Prop
  | .step s => s.key ∈ st'.visited
  | .deps ds => ∀ d ∈ ds, (∀ t ∈ steps, t.key ≠ d) ∨ d ∈ st'.visited

/-! ## Theorems -/

/-- C3.  For the module binding `Config` to a pre-built value,
`Database` to a class with dependency `Config`, and `UserService` to a
class with dependencies `Database` and `Config`, with roots
`{UserService}` and empty activation: planning succeeds with exactly 3
steps, `Injector.produce` succeeds, and the produced `UserService`
object holds exactly the instances stored for `Database` and `Config`
(one shared instance per key). -/
theorem c3_basic_singleton_sharing :
    (plannerPlan mS1 [kUS] Activation.empty none).map (fun p => p.steps.length) =
      Except.ok 3 ∧
    injectorProduce mS1 [kUS] Activation.empty none = .ok locS1 ∧
    locS1.get kCfg = .ok (.str "shared") ∧
    locS1.get kDB = .ok dbVal ∧
    locS1.get kUS = .ok (.obj "UserService" [dbVal, .str "shared"]) := by
  exact ⟨by rfl, by rfl, by rfl, by rfl, by rfl⟩

/-- C4.  The readiness test of `Producer.produceAsync` never consults
the parent locator: for the valid plan with a single step `A` whose only
dependency `P` is served by the parent locator, the synchronous producer
succeeds, but `produceAsync` finds no ready step and raises the
malformed-plan error even though the parent serves `P`. -/
theorem c4_async_parent_dependency_bug :
    plannerPlan mA [kA] Activation.empty (some parentP) = .ok planA ∧
    parentP.has kP = true ∧
    produce planA (some parentP) = .ok ⟨[(kA, .obj "A" [.str "p"])]⟩ ∧
    stepReady [] [] ⟨kA, .one bA, [kP]⟩ = false ∧
    produceAsync planA (some parentP) =
      .error "Circular dependency detected or invalid plan" := by
  exact ⟨by rfl, by rfl, by rfl, by rfl, by rfl⟩

/-- C5 counterexample.  The plan for the async-factory module references
an async functoid, yet `Injector.produce` runs the synchronous producer:
it stores the unawaited promise, while `Injector.produceAsync` stores
the resolved value — so `produce` does not choose the asynchronous
executor as the claim states. -/
theorem c5_counterexample :
    plannerPlan mAsync [kX] Activation.empty none = .ok planAsync ∧
    planAsync.referencesAsyncFunctoid = true ∧
    injectorProduce mAsync [kX] Activation.empty none =
      .ok ⟨[(kX, .promise (.str "v"))]⟩ ∧
    injectorProduceAsync mAsync [kX] Activation.empty none =
      .ok ⟨[(kX, .str "v")]⟩ ∧
    Value.promise (.str "v") ≠ Value.str "v" := by
  exact ⟨by rfl, by rfl, by rfl, by rfl, fun h => Value.noConfusion h⟩

/-- C5 as amended.  `Injector.produce` always runs the synchronous
producer, whatever the plan references: on the async-factory module the
value it stores for `X` is the unawaited promise wrapping the value that
`Injector.produceAsync` (which the caller must pick explicitly) stores
for `X`. -/
theorem c5_amended_sync_mode :
    (injectorProduce mAsync [kX] Activation.empty none).map (fun l => l.jsGet kX) =
      .ok (.promise (.str "v")) ∧
    (injectorProduceAsync mAsync [kX] Activation.empty none).map (fun l => l.jsGet kX) =
      .ok (.str "v") ∧
    Value.await (.promise (.str "v")) = .str "v" := by
  exact ⟨by rfl, by rfl, by rfl⟩

/-- C9 counterexample.  Tracing the root `Set<Plugin>` of `mWeak`
succeeds (the weak element is dropped), but the key `D` of the abandoned
sub-traversal is left in the `visiting` set: `traceDependencies` does
not restore `visiting` on the exceptional exit path. -/
theorem c9_counterexample :
    traceDeps (planFuel mWeak [kSetP]) kSetP idxWeak paEmpty TraceState.init [] none = (stWeak, none) ∧
    kD ∈ stWeak.visiting := by
  exact ⟨by rfl, by decide⟩

/-- C9 as amended.  The stale `visiting` mark is observable: with a
second weak element also depending on `D`, the second element's
traversal reaches the still-visiting `D` and raises
`CircularDependencyError`, which the weak-element recovery does not
catch, so the whole plan fails instead of dropping both elements. -/
theorem c9_amended_stale_visiting_circular :
    plannerPlan mWeak2 [kSetP] Activation.empty none =
      .error (.circularDependency [kSetP, kD]) := by
  rfl

/-- C10 counterexample.  Producing the module that binds `X` to the
pre-built value `undefined` yields a locator with `has(X) = true` while
`get(X)` throws and `find(X)` is `undefined`: the claimed equivalences
fail when a binding's produced value is `undefined`. -/
theorem c10_counterexample :
    injectorProduce mU [kX] Activation.empty none = .ok locU ∧
    locU.has kX = true ∧
    locU.get kX = .error ("No instance found for key: " ++ kX.tname) ∧
    locU.find kX = .undefined := by
  exact ⟨by rfl, by rfl, by rfl, by rfl⟩

/-- C7 counterexample.  A subcontext whose child module binds `X` to the
value `undefined`: the child locator has an instance for `X`, yet
`Subcontext.get(X)` returns the parent's value, not the child's
instance. -/
theorem c7_counterexample :
    Subcontext.create parentX mU [kX] Activation.empty = .ok ⟨parentX, locU⟩ ∧
    locU.has kX = true ∧
    locU.lookupStored kX = some .undefined ∧
    Subcontext.get ⟨parentX, locU⟩ kX = .ok (.str "parentVal") ∧
    Value.str "parentVal" ≠ Value.undefined := by
  exact ⟨by rfl, by rfl, by rfl, by rfl, fun h => Value.noConfusion h⟩

/-- C8 counterexample.  `withTypes` performs no arity check: applying it
with a single type to a functoid whose callable has arity 2 succeeds and
yields a functoid with `arity = 2` but one dependency, violating the
claimed construction-time invariant `callable.arity == dependencies.length`. -/
theorem c8_counterexample :
    (fTwo.withTypes ["D"]).arity = 2 ∧
    (fTwo.withTypes ["D"]).deps.length = 1 ∧
    (fTwo.withTypes ["D"]).arity ≠ (fTwo.withTypes ["D"]).deps.length := by
  exact ⟨by rfl, by rfl, by decide⟩

/-- C1 counterexample.  Overriding a module holding the set-element
binding `bSet1` by a module holding the set-element binding `bSet2` for
the same collection key keeps only `bSet2`: set-element bindings are
*not* all retained by `overriddenBy`. -/
theorem c1_counterexample :
    (mOverBase.overriddenBy mOverlay).bindings = [bSet2] ∧
    bSet1 ∉ (mOverBase.overriddenBy mOverlay).bindings := by
  have h : (mOverBase.overriddenBy mOverlay).bindings = [bSet2] := by rfl
  refine ⟨h, ?_⟩
  rw [h]
  intro hmem
  rw [List.mem_singleton] at hmem
  have h2 : "p1" = "p2" := congrArg
    (fun b : Binding =>
      match b.payload with
      | .set _ e _ =>
          (match e.payload with
           | .instance (.str v) => v
           | _ => "")
      | _ => "") hmem
  exact absurd h2 (by decide)

/-- C2 counterexample.  For the module with a weak set element whose
dependency `D` cannot be planned (its own dependency `E` is missing) and
a surviving value element, planning with no parent locator succeeds, yet
the set's single step records the dropped element's dependency `D` in
its dependency list, and no step of the plan has key `D`: the claimed
topological property and the claimed exclusion of dropped elements'
dependency keys both fail. -/
theorem c2_counterexample :
    plannerPlan mWeak [kSetP] Activation.empty none = .ok planWeak ∧
    planWeak.steps.map (fun s => s.key) = [kSetP] ∧
    planWeak.steps.map (fun s => s.dependencies) = [[kD]] ∧
    (∀ t ∈ planWeak.steps, t.key ≠ kD) := by
  refine ⟨by rfl, by rfl, by rfl, ?_⟩
  intro t ht
  simp only [planWeak] at ht
  rw [List.mem_singleton] at ht
  subst ht
  decide

/-- C6.  Whenever `selectBinding` faces candidates none of which is
valid under the current path activation, it raises `AxisConflict` —
carrying the rendered path-constraint description — when at least one
candidate matches the base activation (such a candidate necessarily
failed the path constraints), and raises `MissingDependency` when no
candidate matches the base activation. -/
theorem c6_axis_conflict_vs_missing (key : DIKey) (cands : List Binding)
    (pa : PathActivation) (rb : Option DIKey)
    (hnv : ∀ b ∈ cands, pa.isBindingValid b = false) :
    ((∃ b ∈ cands, b.tags.matches pa.base = true ∧ pa.isBindingValid b = false) →
       selectBinding key cands pa rb =
         .error (.axisConflict key rb pa.getConstraintsDescription)) ∧
    ((∀ b ∈ cands, b.tags.matches pa.base = false) →
       selectBinding key cands pa rb = .error (.missingDependency key rb)) := by
  have hfilter : cands.filter (fun b => pa.isBindingValid b) = [] := by
    rw [List.filter_eq_nil_iff]
    intro b hb
    simp [hnv b hb]
  constructor
  · rintro ⟨b, hb, hmatch, _⟩
    have hpos : 0 < (cands.filter (fun b => b.tags.matches pa.base)).length := by
      refine List.length_pos.mpr ?_
      intro hnil
      have := (List.filter_eq_nil_iff.mp hnil) b hb
      simp [hmatch] at this
    simp only [selectBinding, hfilter]
    rw [if_pos hpos]
  · intro hnone
    have hzero : (cands.filter (fun b => b.tags.matches pa.base)) = [] := by
      rw [List.filter_eq_nil_iff]
      intro b hb
      simp [hnone b hb]
    simp [selectBinding, hfilter, hzero]

/-- C6 witness: for the candidate `bTagged`, which matches the base
activation `Env:prod` but is forbidden by the path constraints of
`paConf`, `selectBinding` raises `AxisConflict` with the rendered
constraints. -/
theorem c6_witness :
    selectBinding kD [bTagged] paConf (some kA) =
      .error (.axisConflict kD (some kA) paConf.getConstraintsDescription) := by
  refine (c6_axis_conflict_vs_missing kD [bTagged] paConf (some kA) ?_).1
    ⟨bTagged, List.mem_singleton.mpr rfl, by rfl, by rfl⟩
  intro b hb
  rw [List.mem_singleton] at hb
  subst hb
  rfl

/-- C7 as amended.  `Subcontext.get` returns the child's instance
exactly when the child's stored value exists and is not `undefined`,
falling back to the parent both when the child has no instance and when
the child's stored instance *is* `undefined`; `Subcontext.getSet`
returns the union (parent's elements first) when both locators hold the
set, and otherwise whichever one exists. -/
theorem c7_amended_child_first (s : Subcontext) (k : DIKey) (n : String) :
    (∀ v, s.child.lookupStored k = some v → v ≠ .undefined → s.get k = .ok v) ∧
    (s.child.lookupStored k = none → s.get k = s.parent.get k) ∧
    (s.child.lookupStored k = some .undefined → s.get k = s.parent.get k) ∧
    (∀ ps cs, s.parent.find (DIKey.setOf n) = .vset ps →
       s.child.find (DIKey.setOf n) = .vset cs →
       s.getSet n = .ok (.vset ((ps ++ cs).foldl jsSetAdd []))) ∧
    (∀ cs, s.parent.find (DIKey.setOf n) = .undefined →
       s.child.find (DIKey.setOf n) = .vset cs → s.getSet n = .ok (.vset cs)) ∧
    (∀ ps, s.parent.find (DIKey.setOf n) = .vset ps →
       s.child.find (DIKey.setOf n) = .undefined → s.getSet n = .ok (.vset ps)) := by
  refine ⟨?_, ?_, ?_, ?_, ?_, ?_⟩
  · intro v hv hne
    have hfind : s.child.find k = v := by
      simp [Locator.find, Locator.jsGet, hv]
    unfold Subcontext.get
    rw [hfind]
    cases v <;> first | rfl | exact absurd rfl hne
  · intro hv
    have hfind : s.child.find k = .undefined := by
      simp [Locator.find, Locator.jsGet, hv]
    unfold Subcontext.get
    rw [hfind]
  · intro hv
    have hfind : s.child.find k = .undefined := by
      simp [Locator.find, Locator.jsGet, hv]
    unfold Subcontext.get
    rw [hfind]
  · intro ps cs hp hc
    simp only [Subcontext.getSet]
    rw [hp, hc]
  · intro cs hp hc
    simp only [Subcontext.getSet]
    rw [hp, hc]
  · intro ps hp hc
    simp only [Subcontext.getSet]
    rw [hp, hc]

/-- C7 witness: a subcontext whose child stores the defined value
`"parentVal"` at `X` returns it from `get`. -/
theorem c7_witness :
    Subcontext.get ⟨locU, parentX⟩ kX = .ok (.str "parentVal") :=
  (c7_amended_child_first ⟨locU, parentX⟩ kX "Plugin").1 (.str "parentVal") rfl
    (fun h => Value.noConfusion h)

/-- C8 as amended.  No construction form checks the callable's arity
against the dependency list; the only enforcement is in
`getDependencies`, which throws exactly when the dependency list is
empty while the callable has a positive arity, and otherwise returns
the dependency list even when its length differs from the arity. -/
theorem c8_amended_getDependencies_guard (f : Functoid) :
    (f.getDependencies = .ok f.deps ↔ ¬(f.deps = [] ∧ 0 < f.arity)) ∧
    (f.deps = [] ∧ 0 < f.arity →
      f.getDependencies =
        .error "Cannot resolve dependencies: type information is missing.") := by
  constructor
  · unfold Functoid.getDependencies
    split
    · rename_i hcond
      simp only [List.isEmpty_iff] at hcond
      constructor
      · intro h
        exact absurd h (by simp)
      · intro h
        exact absurd hcond h
    · rename_i hcond
      simp only [List.isEmpty_iff] at hcond
      constructor
      · intro _
        exact hcond
      · intro _
        rfl
  · intro hcond
    unfold Functoid.getDependencies
    rw [if_pos]
    simp only [List.isEmpty_iff]
    exact hcond

/-- C8 witness: the functoid of arity 2 with an empty dependency list
makes `getDependencies` throw. -/
theorem c8_witness :
    fTwo.getDependencies =
      .error "Cannot resolve dependencies: type information is missing." :=
  (c8_amended_getDependencies_guard fTwo).2 ⟨rfl, by decide⟩

/-- C10 as amended.  On every locator, `has` is true exactly when the
key is in the instance map; `get` succeeds exactly when the stored value
exists and is not `undefined`; and when a produced value *is*
`undefined`, `has` is true while `get` throws and `find` returns
`undefined` — so the claimed equivalences hold precisely for keys whose
value is defined. -/
theorem c10_amended_locator_lookup (l : Locator) (k : DIKey) :
    (l.has k = true ↔ (l.lookupStored k).isSome = true) ∧
    ((∃ v, l.get k = .ok v) ↔ (∃ v, l.lookupStored k = some v ∧ v ≠ .undefined)) ∧
    (l.lookupStored k = some .undefined →
      l.has k = true ∧
      l.get k = .error ("No instance found for key: " ++ k.tname) ∧
      l.find k = .undefined) ∧
    (l.lookupStored k = none →
      l.has k = false ∧
      l.get k = .error ("No instance found for key: " ++ k.tname) ∧
      l.find k = .undefined) := by
  refine ⟨Iff.rfl, ?_, ?_, ?_⟩
  · constructor
    · rintro ⟨v, hv⟩
      unfold Locator.get Locator.jsGet at hv
      cases hls : l.lookupStored k with
      | none => rw [hls] at hv; simp at hv
      | some w =>
          rw [hls] at hv
          cases w <;> simp_all
          all_goals intro h
          all_goals rw [h] at hv
          all_goals exact Value.noConfusion hv
    · rintro ⟨v, hv, hne⟩
      unfold Locator.get Locator.jsGet
      rw [hv]
      cases v
      · exact absurd rfl hne
      all_goals exact ⟨_, rfl⟩
  · intro hls
    refine ⟨by simp [Locator.has, hls], ?_, by simp [Locator.find, Locator.jsGet, hls]⟩
    unfold Locator.get Locator.jsGet
    rw [hls]
    rfl
  · intro hls
    refine ⟨by simp [Locator.has, hls], ?_, by simp [Locator.find, Locator.jsGet, hls]⟩
    unfold Locator.get Locator.jsGet
    rw [hls]
    rfl

/-- C10 witness: the locator produced from the `undefined`-value module
has `X` in its map, yet `get` throws and `find` is `undefined`. -/
theorem c10_witness :
    locU.has kX = true ∧
    locU.get kX = .error ("No instance found for key: " ++ kX.tname) ∧
    locU.find kX = .undefined :=
  (c10_amended_locator_lookup locU kX).2.2.1 rfl

theorem groupLookup_nil (k : DIKey) : groupLookup [] k = [] := rfl

theorem groupLookup_cons (k₀ : DIKey) (bs : List Binding)
    (rest : List (DIKey × List Binding)) (k : DIKey) :
    groupLookup ((k₀, bs) :: rest) k = if k₀ = k then bs else groupLookup rest k := by
  by_cases h : k₀ = k
  · subst h
    simp [groupLookup]
  · simp [groupLookup, h]

theorem groupPush_lookup (m : List (DIKey × List Binding)) (k' : DIKey) (b : Binding)
    (k : DIKey) :
    groupLookup (groupPush m k' b) k =
      if k' = k then groupLookup m k ++ [b] else groupLookup m k := by
  induction m with
  | nil =>
      by_cases h : k' = k
      · subst h
        simp [groupPush, groupLookup_cons, groupLookup_nil]
      · simp [groupPush, groupLookup_cons, groupLookup_nil, h]
  | cons p rest ih =>
      obtain ⟨k₀, bs⟩ := p
      by_cases h0 : k₀ = k'
      · subst h0
        have hpush : groupPush ((k₀, bs) :: rest) k₀ b = (k₀, bs ++ [b]) :: rest := by
          simp [groupPush]
        rw [hpush, groupLookup_cons, groupLookup_cons]
        by_cases h : k₀ = k
        · simp [h]
        · simp [h]
      · simp only [groupPush, if_neg h0]
        rw [groupLookup_cons, groupLookup_cons, ih]
        by_cases h : k₀ = k
        · have hk : ¬ k' = k := fun hh => h0 (h.trans hh.symm)
          simp [h, hk]
        · simp [h]

theorem buildGroups_lookup (bs : List Binding) (acc : List (DIKey × List Binding))
    (k : DIKey) :
    groupLookup (buildGroups acc bs) k =
      groupLookup acc k ++ bs.filter (fun b => b.key = k) := by
  induction bs generalizing acc with
  | nil => simp [buildGroups]
  | cons b rest ih =>
      have hstep : buildGroups acc (b :: rest) = buildGroups (groupPush acc b.key b) rest := by
        simp [buildGroups]
      rw [hstep, ih, groupPush_lookup]
      by_cases h : b.key = k
      · simp [h, List.filter_cons]
      · simp [h, List.filter_cons]

theorem groupPush_keys (m : List (DIKey × List Binding)) (k : DIKey) (b : Binding) :
    (groupPush m k b).map Prod.fst =
      if k ∈ m.map Prod.fst then m.map Prod.fst else m.map Prod.fst ++ [k] := by
  induction m with
  | nil => simp [groupPush]
  | cons p rest ih =>
      obtain ⟨k₀, bs⟩ := p
      by_cases h : k₀ = k
      · subst h
        simp [groupPush]
      · have hne : ¬ k = k₀ := fun hh => h hh.symm
        simp only [groupPush, if_neg h, List.map_cons, ih]
        by_cases hk : k ∈ rest.map Prod.fst
        · simp [hk, hne]
        · simp [hk, hne]

theorem groupPush_wf (m : List (DIKey × List Binding)) (k : DIKey) (b : Binding)
    (hwf : GroupsWF m) (hb : b.key = k) : GroupsWF (groupPush m k b) := by
  obtain ⟨hkeys, hnodup⟩ := hwf
  constructor
  · induction m with
    | nil =>
        intro p hp bb hbb
        simp [groupPush] at hp
        subst hp
        simp at hbb
        subst hbb
        exact hb
    | cons q rest ih =>
        obtain ⟨k₀, bs⟩ := q
        by_cases h : k₀ = k
        · subst h
          intro p hp bb hbb
          simp only [groupPush, if_pos rfl] at hp
          rcases List.mem_cons.mp hp with h1 | h1
          · subst h1
            rcases List.mem_append.mp hbb with h2 | h2
            · exact hkeys ⟨k₀, bs⟩ (List.mem_cons_self _ _) bb h2
            · simp at h2
              subst h2
              exact hb
          · exact hkeys p (List.mem_cons_of_mem _ h1) bb hbb
        · intro p hp bb hbb
          simp only [groupPush, if_neg h] at hp
          rcases List.mem_cons.mp hp with h1 | h1
          · subst h1
            exact hkeys ⟨k₀, bs⟩ (List.mem_cons_self _ _) bb hbb
          · refine ih (fun q hq => hkeys q (List.mem_cons_of_mem _ hq)) ?_ p h1 bb hbb
            exact (List.nodup_cons.mp hnodup).2
  · rw [groupPush_keys]
    by_cases hk : k ∈ m.map Prod.fst
    · simp [hk, hnodup]
    · rw [if_neg hk]
      refine List.Nodup.append hnodup (List.nodup_singleton k) ?_
      intro x hx hxk
      rw [List.mem_singleton] at hxk
      subst hxk
      exact hk hx

theorem buildGroups_wf (bs : List Binding) (acc : List (DIKey × List Binding))
    (hwf : GroupsWF acc) : GroupsWF (buildGroups acc bs) := by
  induction bs generalizing acc with
  | nil => exact hwf
  | cons b rest ih =>
      have hstep : buildGroups acc (b :: rest) = buildGroups (groupPush acc b.key b) rest := by
        simp [buildGroups]
      rw [hstep]
      exact ih _ (groupPush_wf acc b.key b hwf rfl)

theorem groupLookup_of_not_mem (m : List (DIKey × List Binding)) (k : DIKey)
    (h : k ∉ m.map Prod.fst) : groupLookup m k = [] := by
  induction m with
  | nil => rfl
  | cons p rest ih =>
      obtain ⟨k₀, bs⟩ := p
      simp only [List.map_cons, List.mem_cons] at h
      push_neg at h
      have hne : ¬ k₀ = k := fun hh => h.1 hh.symm
      rw [groupLookup_cons, if_neg hne]
      exact ih h.2

theorem getLast?_some_mem {α : Type} {l : List α} {b : α}
    (h : l.getLast? = some b) : b ∈ l := by
  rcases List.mem_getLast?_eq_getLast (Option.mem_def.mpr h) with ⟨hne, hx⟩
  rw [hx]
  exact List.getLast_mem hne

theorem filterMap_getLast_of_wf (m : List (DIKey × List Binding)) (k : DIKey)
    (hwf : GroupsWF m) :
    (m.filterMap (fun p => p.2.getLast?)).filter (fun x => x.key = k) =
      (groupLookup m k).getLast?.toList := by
  induction m with
  | nil => rfl
  | cons p rest ih =>
      obtain ⟨k₀, l⟩ := p
      obtain ⟨hkeys, hnodup⟩ := hwf
      have hwfrest : GroupsWF rest :=
        ⟨fun q hq => hkeys q (List.mem_cons_of_mem _ hq), (List.nodup_cons.mp hnodup).2⟩
      have ihr := ih hwfrest
      rw [groupLookup_cons]
      by_cases hk : k₀ = k
      · subst hk
        have hnot : k₀ ∉ rest.map Prod.fst := (List.nodup_cons.mp hnodup).1
        have hrest0 : groupLookup rest k₀ = [] := groupLookup_of_not_mem rest k₀ hnot
        have hrestnil :
            (rest.filterMap (fun p => p.2.getLast?)).filter (fun x => x.key = k₀) = [] := by
          rw [ihr, hrest0]
          rfl
        cases hl : l.getLast? with
        | none =>
            have hlnil : l = [] := List.getLast?_eq_none_iff.mp hl
            subst hlnil
            simp [List.filterMap_cons, hrestnil]
        | some b =>
            have hbkey : b.key = k₀ :=
              hkeys ⟨k₀, l⟩ (List.mem_cons_self _ _) b (getLast?_some_mem hl)
            simp only [List.filterMap_cons, hl]
            rw [List.filter_cons]
            simp [hbkey, hrestnil, hl]
      · cases hl : l.getLast? with
        | none =>
            simp only [List.filterMap_cons, hl]
            rw [if_neg hk]
            exact ihr
        | some b =>
            have hbkey : b.key = k₀ :=
              hkeys ⟨k₀, l⟩ (List.mem_cons_self _ _) b (getLast?_some_mem hl)
            simp only [List.filterMap_cons, hl]
            rw [List.filter_cons]
            have hbk : ¬ (b.key = k) := by
              rw [hbkey]
              exact hk
            simp [hbk, ihr, hk]

/-- C1 as amended.  `overriddenBy` keeps, for each key — set keys
included — exactly one binding: the last binding for that key in the
concatenation of base and overlay (overlay's last when the overlay has
any binding for the key, otherwise base's last).  Set-element bindings
are collapsed like any other binding instead of all being retained. -/
theorem c1_amended_last_binding_per_key (a b : ModuleDef) (k : DIKey) :
    (a.overriddenBy b).bindings.filter (fun x => x.key = k) =
      ((a.bindings ++ b.bindings).filter (fun x => x.key = k)).getLast?.toList := by
  have hwf : GroupsWF (buildGroups (buildGroups [] a.bindings) b.bindings) :=
    buildGroups_wf _ _ (buildGroups_wf _ _ ⟨by simp, by simp⟩)
  have hlk :
      groupLookup (buildGroups (buildGroups [] a.bindings) b.bindings) k =
        (a.bindings ++ b.bindings).filter (fun x => x.key = k) := by
    rw [buildGroups_lookup, buildGroups_lookup, List.filter_append]
    rfl
  show (List.filterMap (fun p => p.2.getLast?)
      (buildGroups (buildGroups [] a.bindings) b.bindings)).filter (fun x => x.key = k) = _
  rw [filterMap_getLast_of_wf _ _ hwf, hlk]

theorem keySetAdd_mem {l : List DIKey} {k x : DIKey} :
    x ∈ keySetAdd l k ↔ x ∈ l ∨ x = k := by
  unfold keySetAdd
  by_cases h : k ∈ l
  · rw [if_pos h]
    constructor
    · exact Or.inl
    · rintro (hx | rfl)
      · exact hx
      · exact h
  · rw [if_neg h]
    simp

theorem topoRun_ok (steps : List PlanStep) :
    ∀ (fuel : Nat) (call : TopoCall) (st st' : TopoState),
      topoRun steps fuel call st = (st', none) →
      TopoCallOK steps call → TopoInv steps st →
      TopoInv steps st' ∧ (∃ ext, st'.sorted = st.sorted ++ ext) ∧
      (∀ x ∈ st.visited, x ∈ st'.visited) ∧ TopoPost steps st' call := by
  intro fuel
  induction fuel with
  | zero =>
      intro call st st' h
      simp [topoRun] at h
  | succ fuel ih =>
      intro call st st' h hok hinv
      match call with
      | .step s =>
          by_cases hv : s.key ∈ st.visited
          · rw [show topoRun steps (fuel + 1) (.step s) st = (st, none) by
              simp [topoRun, hv]] at h
            obtain ⟨rfl, -⟩ : st = st' ∧ True := by
              refine ⟨?_, trivial⟩
              exact congrArg Prod.fst h
            exact ⟨hinv, ⟨[], by simp⟩, fun x hx => hx, hv⟩
          · by_cases hvg : s.key ∈ st.visiting
            · rw [show topoRun steps (fuel + 1) (.step s) st =
                  (st, some (.circularDependency [s.key])) by
                simp [topoRun, hv, hvg]] at h
              exact absurd (congrArg Prod.snd h) (by simp)
            · have hdef : topoRun steps (fuel + 1) (.step s) st =
                  (match topoRun steps fuel (.deps s.dependencies)
                      { st with visiting := keySetAdd st.visiting s.key } with
                   | (st2, some e) => (st2, some e)
                   | (st2, none) =>
                       ({ st2 with
                          visiting := st2.visiting.filter (fun k => k ≠ s.key),
                          visited := keySetAdd st2.visited s.key,
                          sorted := st2.sorted ++ [s] }, none)) := by
                simp [topoRun, hv, hvg]
              rw [hdef] at h
              rcases hrec : topoRun steps fuel (.deps s.dependencies)
                  { st with visiting := keySetAdd st.visiting s.key } with ⟨st2, oe⟩
              rw [hrec] at h
              cases oe with
              | some e => exact absurd (congrArg Prod.snd h) (by simp)
              | none =>
                  have hst' : st' =
                      { st2 with
                        visiting := st2.visiting.filter (fun k => k ≠ s.key),
                        visited := keySetAdd st2.visited s.key,
                        sorted := st2.sorted ++ [s] } :=
                    (congrArg Prod.fst h).symm
                  obtain ⟨hinv2, ⟨ext2, hext2⟩, hmono2, hpost2⟩ :=
                    ih (.deps s.dependencies)
                      { st with visiting := keySetAdd st.visiting s.key } st2 hrec
                      trivial hinv
                  obtain ⟨hord2, hvis2, hsub2⟩ := hinv2
                  subst hst'
                  refine ⟨⟨?_, ?_, ?_⟩, ⟨ext2 ++ [s], by simp [hext2]⟩,
                    ?_, keySetAdd_mem.mpr (Or.inr rfl)⟩
                  · intro i s' hget k hk
                    by_cases hi : i < st2.sorted.length
                    · have hget2 : st2.sorted.get? i = some s' := by
                        rw [← List.get?_append hi]
                        exact hget
                      rcases hord2 i s' hget2 k hk with ⟨j, t, hj, hgj, hkey⟩ | hnone
                      · have hjlt : j < st2.sorted.length := lt_trans hj hi
                        exact Or.inl ⟨j, t, hj, by rw [List.get?_append hjlt]; exact hgj, hkey⟩
                      · exact Or.inr hnone
                    · have hi2 : i = st2.sorted.length := by
                        by_contra hne
                        have hgt : st2.sorted.length + 1 ≤ i :=
                          Nat.succ_le_of_lt (lt_of_le_of_ne (le_of_not_lt hi)
                            (fun hh => hne hh.symm))
                        have : (st2.sorted ++ [s]).get? i = none := by
                          rw [List.get?_eq_none]
                          simpa using hgt
                        rw [this] at hget
                        exact Option.noConfusion hget
                      subst hi2
                      have hs' : s' = s := by
                        have : (st2.sorted ++ [s]).get? st2.sorted.length = some s := by
                          rw [List.get?_append_right (le_refl _)]
                          simp
                        rw [this] at hget
                        exact (Option.some.injEq _ _ ▸ hget).symm ▸ rfl
                      subst hs'
                      rcases hpost2 k hk with hnone | hvisited
                      · exact Or.inr hnone
                      · rcases hvis2 k hvisited with ⟨t, htmem, htkey⟩
                        rcases List.get?_of_mem htmem with ⟨j, hgj⟩
                        have hjlt : j < st2.sorted.length := by
                          by_contra hge
                          rw [List.get?_eq_none.mpr (le_of_not_lt hge)] at hgj
                          exact Option.noConfusion hgj
                        exact Or.inl ⟨j, t, hjlt,
                          by rw [List.get?_append hjlt]; exact hgj, htkey⟩
                  · intro x hx
                    rcases keySetAdd_mem.mp hx with hx2 | rfl
                    · rcases hvis2 x hx2 with ⟨t, htmem, htkey⟩
                      exact ⟨t, List.mem_append_left _ htmem, htkey⟩
                    · exact ⟨s, List.mem_append_right _ (List.mem_singleton.mpr rfl), rfl⟩
                  · intro t ht
                    rcases List.mem_append.mp ht with ht2 | ht2
                    · exact hsub2 t ht2
                    · rw [List.mem_singleton.mp ht2]
                      exact hok
                  · intro x hx
                    exact keySetAdd_mem.mpr (Or.inl (hmono2 x hx))
      | .deps [] =>
          have : st = st' := by simpa [topoRun] using h
          subst this
          exact ⟨hinv, ⟨[], by simp⟩, fun x hx => hx, fun d hd => absurd hd (by simp)⟩
      | .deps (d :: ds) =>
          rcases hfind : steps.find? (fun s => s.key = d) with _ | depStep
          · have hdef : topoRun steps (fuel + 1) (.deps (d :: ds)) st =
                topoRun steps fuel (.deps ds) st := by
              simp [topoRun, hfind]
            rw [hdef] at h
            obtain ⟨hinv', hext, hmono, hpost⟩ := ih (.deps ds) st st' h trivial hinv
            refine ⟨hinv', hext, hmono, ?_⟩
            intro x hx
            rcases List.mem_cons.mp hx with rfl | hx2
            · refine Or.inl ?_
              intro t ht hkey
              have := List.find?_eq_none.mp hfind t ht
              simp [hkey] at this
            · exact hpost x hx2
          · have hdef : topoRun steps (fuel + 1) (.deps (d :: ds)) st =
                (match topoRun steps fuel (.step depStep) st with
                 | (st'', some e) => (st'', some e)
                 | (st'', none) => topoRun steps fuel (.deps ds) st'') := by
              simp [topoRun, hfind]
            rw [hdef] at h
            rcases hrec1 : topoRun steps fuel (.step depStep) st with ⟨st'', oe1⟩
            rw [hrec1] at h
            cases oe1 with
            | some e => exact absurd (congrArg Prod.snd h) (by simp)
            | none =>
                have hmem : depStep ∈ steps := List.mem_of_find?_eq_some hfind
                have hdkey : depStep.key = d := by
                  have := List.find?_some hfind
                  exact of_decide_eq_true this
                obtain ⟨hinv1, ⟨ext1, hext1⟩, hmono1, hpost1⟩ :=
                  ih (.step depStep) st st'' hrec1 hmem hinv
                obtain ⟨hinv2, ⟨ext2, hext2⟩, hmono2, hpost2⟩ :=
                  ih (.deps ds) st'' st' h trivial hinv1
                refine ⟨hinv2, ⟨ext1 ++ ext2, by rw [hext2, hext1, List.append_assoc]⟩,
                  fun x hx => hmono2 x (hmono1 x hx), ?_⟩
                intro x hx
                rcases List.mem_cons.mp hx with rfl | hx2
                · exact Or.inr (hmono2 _ (hdkey ▸ hpost1))
                · exact hpost2 x hx2

theorem topoLoop_ok (steps : List PlanStep) :
    ∀ (ss : List PlanStep) (st st' : TopoState),
      topoLoop steps ss st = (st', none) → (∀ s ∈ ss, s ∈ steps) →
      TopoInv steps st → TopoInv steps st' := by
  intro ss
  induction ss with
  | nil =>
      intro st st' h _ hinv
      have : st = st' := by simpa [topoLoop] using h
      subst this
      exact hinv
  | cons s ss ih =>
      intro st st' h hmem hinv
      have hdef : topoLoop steps (s :: ss) st =
          (match topoRun steps (topoFuel steps) (.step s) st with
           | (st1, some e) => (st1, some e)
           | (st1, none) => topoLoop steps ss st1) := by
        simp [topoLoop]
      rw [hdef] at h
      rcases hrun : topoRun steps (topoFuel steps) (.step s) st with ⟨st1, oe⟩
      rw [hrun] at h
      cases oe with
      | some e => exact absurd (congrArg Prod.snd h) (by simp)
      | none =>
          obtain ⟨hinv1, -, -, -⟩ :=
            topoRun_ok steps (topoFuel steps) (.step s) st st1 hrun
              (hmem s (List.mem_cons_self _ _)) hinv
          exact ih st1 st' h (fun t ht => hmem t (List.mem_cons_of_mem _ ht)) hinv1

theorem topologicalSort_sound (steps sorted : List PlanStep)
    (h : topologicalSort steps = .ok sorted) :
    (∀ i s, sorted.get? i = some s → ∀ k ∈ s.dependencies,
      (∃ j t, j < i ∧ sorted.get? j = some t ∧ t.key = k) ∨
      (∀ t ∈ steps, t.key ≠ k)) ∧
    (∀ s ∈ sorted, s ∈ steps) := by
  unfold topologicalSort at h
  rcases hl : topoLoop steps steps ⟨[], [], []⟩ with ⟨st, oe⟩
  rw [hl] at h
  cases oe with
  | some e => exact absurd h (by simp)
  | none =>
      have hsorted : st.sorted = sorted := by
        injection h
      have hinv0 : TopoInv steps ⟨[], [], []⟩ := by
        refine ⟨?_, ?_, ?_⟩
        · intro i s hget
          simp at hget
        · intro x hx
          simp at hx
        · intro s hs
          simp at hs
      have hinv := topoLoop_ok steps steps ⟨[], [], []⟩ st hl (fun s hs => hs) hinv0
      rw [← hsorted]
      exact ⟨hinv.1, hinv.2.2⟩

/-- C2 as amended.  For every module, roots, activation and parent for
which the planner returns a plan, every dependency key of every step
either is the key of a step appearing strictly earlier in the plan, or
is the key of no step of the plan at all — the keyless case covering
both dependencies served by the parent locator and dependency keys left
behind by weak set elements dropped during planning (the counterexample
shows such leftovers occur, so the claimed stronger property cannot
hold). -/
theorem c2_amended_plan_topologically_sound (m : ModuleDef) (roots : List DIKey)
    (activation : Activation) (parent : Option Locator) (plan : Plan)
    (h : plannerPlan m roots activation parent = .ok plan) : PlanTopoSound plan := by
  simp only [plannerPlan] at h
  rcases hr : rootsLoop (planFuel m roots) (buildGroups [] m.bindings)
      (PathActivation.fromActivation activation) parent roots TraceState.init with ⟨st, oe⟩
  rw [hr] at h
  cases oe with
  | some e => exact absurd h (by simp)
  | none =>
      have h2 : (match topologicalSort (st.steps.map (fun p => p.2)) with
          | Except.error e => Except.error e
          | Except.ok sorted => Except.ok (⟨sorted, roots⟩ : Plan)) = Except.ok plan := h
      rcases hts : topologicalSort (st.steps.map (fun p => p.2)) with e | sorted
      · rw [hts] at h2
        exact absurd h2 (by simp)
      · rw [hts] at h2
        have hplan : plan = ⟨sorted, roots⟩ := by
          injection h2 with h1
          exact h1.symm
        subst hplan
        obtain ⟨hord, hsub⟩ := topologicalSort_sound _ _ hts
        intro i s hget k hk
        rcases hord i s hget k hk with hleft | hright
        · exact Or.inl hleft
        · refine Or.inr ?_
          intro t ht
          exact hright t (hsub t ht)

/-- C2 witness: the weak-element plan of the counterexample satisfies
the amended topological property. -/
theorem c2_witness : PlanTopoSound planWeak :=
  c2_amended_plan_topologically_sound mWeak [kSetP] Activation.empty none planWeak (by rfl)

end Distage
